import Mathlib

/-!
Verification of the data-preparation and evaluation pipeline of the
clustering workshop notebook (`clustering_linguistic_data.ipynb`).

The notebook is a linear sequence of pandas / scipy / sklearn calls.  Each
pipeline stage is embedded here as a pure function over lists of rows:

* numeric measurements are exact rationals (`ℚ`) where the stage is pure
  tabular arithmetic, and exact reals (`ℝ`) for the z-score stage, whose
  standard deviation involves a square root;
* a missing value (pandas `NaN` in a raw CSV column) is `Option.none`;
* the IEEE result of dividing by a zero standard deviation inside
  `scipy.stats.zscore` (`0/0 = NaN`) is modelled by an `Option ℝ` result,
  `none` standing for NaN;
* the external clustering library (sklearn) is not part of the repository;
  its call-through adapter is modelled from the spec, with the label
  assignment itself left as an opaque function parameter.
-/

namespace ClusteringWorkshop

/-! ## Real-valued statistics used by `scipy.stats.zscore` -/

/-- Arithmetic mean of a list of reals, as computed by `np.mean`
(0 for the empty list, since `x/0 = 0` in Lean's reals). -/
noncomputable def mean (xs : List ℝ) : ℝ := xs.sum / xs.length

/-- Population variance (`np.var`, i.e. `ddof = 0`): mean squared deviation. -/
noncomputable def popVar (xs : List ℝ) : ℝ :=
  (xs.map (fun x => (x - mean xs) ^ 2)).sum / xs.length

/-- Population standard deviation (`np.std`, `ddof = 0`), the default used by
`scipy.stats.zscore`. -/
noncomputable def popStd (xs : List ℝ) : ℝ := Real.sqrt (popVar xs)

/-- Sample variance (`ddof = 1`): squared deviations divided by `n - 1`. -/
noncomputable def sampleVar (xs : List ℝ) : ℝ :=
  (xs.map (fun x => (x - mean xs) ^ 2)).sum / (xs.length - 1)

/-- Sample standard deviation (`ddof = 1`). -/
noncomputable def sampleStd (xs : List ℝ) : ℝ := Real.sqrt (sampleVar xs)

/-- The value `scipy.stats.zscore` assigns to `x` relative to the values `xs`
of its group: `(x - mean xs) / popStd xs` (scipy's default is `ddof = 0`).
When the group standard deviation is zero the IEEE division yields NaN
instead of raising; NaN is modelled as `none`. -/
noncomputable def zscoreAt (xs : List ℝ) (x : ℝ) : Option ℝ :=
  if popStd xs = 0 then none else some ((x - mean xs) / popStd xs)

/-- The function `scipy.stats.zscore` applied to one whole group. -/
noncomputable def zscore (xs : List ℝ) : List (Option ℝ) := xs.map (zscoreAt xs)

/-! ## The vowels table (post-loading view used by the normalizer, cell 16) -/

/-- One row of the `vowels` table restricted to the columns the normalizer
reads (cell 16 z-scores the columns `F2` and `F1` within each `speaker`). -/
structure VRow where
  speaker : String
  phone_label : String
  F2 : ℝ
  F1 : ℝ

/-- One row after the normalizer: the original columns plus the two appended
z-score columns (`F2.z` and `F1.z`, `none` = NaN). -/
structure VRowZ where
  speaker : String
  phone_label : String
  F2 : ℝ
  F1 : ℝ
  F2z : Option ℝ
  F1z : Option ℝ

/-- Projection of a normalized row back onto the original columns. -/
def VRowZ.orig (r : VRowZ) : VRow := ⟨r.speaker, r.phone_label, r.F2, r.F1⟩

/-- The `F1` values of the speaker group of `s` (what
`vowels.groupby('speaker')['F1']` hands to `stats.zscore`). -/
def groupF1 (t : List VRow) (s : String) : List ℝ :=
  (t.filter (fun r => r.speaker = s)).map (fun r => r.F1)

/-- The `F2` values of the speaker group of `s`. -/
def groupF2 (t : List VRow) (s : String) : List ℝ :=
  (t.filter (fun r => r.speaker = s)).map (fun r => r.F2)

/-- Cell 16 of the notebook:
`zscores = vowels.groupby('speaker')[['F2','F1']].transform(stats.zscore)`
followed by `vowels = pd.concat([vowels, zscores], axis=1)`.
Each row receives the z-scores computed within its own speaker group, and
every original column is carried over unchanged. -/
noncomputable def normalize (t : List VRow) : List VRowZ :=
  t.map (fun r =>
    { speaker := r.speaker
      phone_label := r.phone_label
      F2 := r.F2
      F1 := r.F1
      F2z := zscoreAt (groupF2 t r.speaker) r.F2
      F1z := zscoreAt (groupF1 t r.speaker) r.F1 })

/-- The normalized `F1.z` column restricted to the rows of speaker `s`,
in row order. -/
noncomputable def zOutF1 (t : List VRow) (s : String) : List (Option ℝ) :=
  ((normalize t).filter (fun r => r.speaker = s)).map (fun r => r.F1z)

/-- The normalized `F2.z` column restricted to the rows of speaker `s`,
in row order. -/
noncomputable def zOutF2 (t : List VRow) (s : String) : List (Option ℝ) :=
  ((normalize t).filter (fun r => r.speaker = s)).map (fun r => r.F2z)

/-! ## Dataset loader (cell 10) -/

/-- One raw CSV row before filtering: the two formant measurements may be
missing (`none` = the CSV cell is empty / NaN). -/
structure LRow where
  speaker : String
  phone_label : String
  F1 : Option ℚ
  F2 : Option ℚ

/-- Cell 10 of the notebook: `vowels = vowels[~vowels['F1'].isnull()]`.
Only rows whose `F1` entry is missing are removed; no other column is
inspected by the filter. -/
def loadFilter (t : List LRow) : List LRow :=
  t.filter (fun r => r.F1.isSome)

/-! ## Subset selector, aggregator and cluster adapter (cells 17, 19, 50) -/

/-- One row of the table the subset selector and aggregator operate on:
the grouping keys plus the two z-scored numeric columns, here taken as exact
rationals. -/
structure ARow where
  speaker : String
  phone_label : String
  F2z : ℚ
  F1z : ℚ
  deriving DecidableEq

/-- Cells 17 and 36: `vowels[vowels['phone_label'].isin(cats)]`: keep exactly
the rows whose `phone_label` is a member of the given category list. -/
def selectSubset (cats : List String) (t : List ARow) : List ARow :=
  t.filter (fun r => r.phone_label ∈ cats)

/-- Arithmetic mean of a list of rationals (0 for the empty list). -/
def qmean (xs : List ℚ) : ℚ := xs.sum / xs.length

/-- The distinct grouping-key tuples of the table, in first-occurrence order
(the index produced by `groupby(['speaker','phone_label'])`). -/
def aggKeys (t : List ARow) : List (String × String) :=
  (t.map (fun r => (r.speaker, r.phone_label))).dedup

/-- The rows of the group of the key tuple `k`. -/
def aggGroup (t : List ARow) (k : String × String) : List ARow :=
  t.filter (fun r => (r.speaker, r.phone_label) = k)

/-- Cell 50 of the notebook:
`tense.groupby(['speaker','phone_label'])[['F2.z','F1.z']].mean().reset_index()`:
one output row per distinct `(speaker, phone_label)` tuple, the numeric
columns replaced by their arithmetic mean over the group, the key columns
retained. -/
def aggMeans (t : List ARow) : List ARow :=
  (aggKeys t).map (fun k =>
    { speaker := k.1
      phone_label := k.2
      F2z := qmean ((aggGroup t k).map (fun r => r.F2z))
      F1z := qmean ((aggGroup t k).map (fun r => r.F1z)) })

/-- The feature matrix handed to the clustering calls:
`subset.loc[:,['F2.z','F1.z']]`. -/
def featureMatrix (t : List ARow) : List (ℚ × ℚ) :=
  t.map (fun r => (r.F2z, r.F1z))

/-- Failure conditions of the cluster adapter. -/
inductive ClusterError where
  | invalidConfiguration
  deriving DecidableEq

/-- Modelled from the spec: the external k-means routine
(`cluster.KMeans(n_clusters = k).fit`, sklearn) is not part of this
repository.  Per the spec (section 4.4) the requested cluster count is a
positive integer, and an invocation on fewer points than the requested
count fails with an `InvalidConfiguration` condition that propagates to the
caller; it is never clamped.  The label assignment on a valid input is the
external black box, kept abstract as the parameter `assign`. -/
def kmeansFit (assign : List (ℚ × ℚ) → List ℕ) (k : ℕ)
    (pts : List (ℚ × ℚ)) : Except ClusterError (List ℕ) :=
  if 1 ≤ k ∧ k ≤ pts.length then .ok (assign pts)
  else .error .invalidConfiguration

/-- Modelled from the spec: the external Gaussian-mixture routine
(`mixture.GaussianMixture(n_components = k).fit`, sklearn) is not part of
this repository; per the spec (section 4.4) it fails with
`InvalidConfiguration` exactly as k-means does when the component count is
incompatible with the row count. -/
def gmmFit (assign : List (ℚ × ℚ) → List ℕ) (k : ℕ)
    (pts : List (ℚ × ℚ)) : Except ClusterError (List ℕ) :=
  if 1 ≤ k ∧ k ≤ pts.length then .ok (assign pts)
  else .error .invalidConfiguration

/-- A concrete stand-in label assignment, used only to state closed
counterexamples about the adapter's failure branch (whose behaviour does not
depend on the assignment). -/
def trivialAssign (pts : List (ℚ × ℚ)) : List ℕ :=
  List.replicate pts.length 0

/-! ## Evaluator: row-normalized contingency table (cell 21) -/

/-- The paired (ground truth, predicted) label sequence over the same rows. -/
def labelPairs (gt pred : List String) : List (String × String) :=
  gt.zip pred

/-- Number of rows carrying ground-truth value `g`. -/
def rowCount (ps : List (String × String)) (g : String) : ℕ :=
  (ps.filter (fun q => q.1 = g)).length

/-- Number of rows carrying ground-truth value `g` and predicted value `p`. -/
def cellCount (ps : List (String × String)) (g p : String) : ℕ :=
  (ps.filter (fun q => q.1 = g ∧ q.2 = p)).length

/-- One row of `pd.crosstab(gt, pred, normalize='index')`: for ground-truth
value `g`, the fraction of its rows landing in each distinct predicted
value. -/
def crosstabRow (gt pred : List String) (g : String) : List (String × ℚ) :=
  pred.dedup.map (fun p =>
    (p, (cellCount (labelPairs gt pred) g p : ℚ) /
        (rowCount (labelPairs gt pred) g : ℚ)))

/-- Cell 21 of the notebook:
`pd.crosstab(subset['phone_label'], subset['cluster_label'], normalize='index')`:
one row per ground-truth value that occurs, each row holding the fractions of
that value's rows assigned to each predicted value. -/
def crosstabIndexNorm (gt pred : List String) :
    List (String × List (String × ℚ)) :=
  gt.dedup.map (fun g => (g, crosstabRow gt pred g))

/-! ## Untyped-row view for the frame-effect claim (cells 17 and 19) -/

/-- An untyped cell value of a pandas dataframe. -/
inductive Val where
  | str (s : String)
  | num (q : ℚ)
  deriving DecidableEq

/-- An untyped dataframe row: an association list from column name to value. -/
abbrev DfRow : Type := List (String × Val)

/-- A row has the column `name` when some cell of it is labelled `name`. -/
def hasCol (name : String) (r : DfRow) : Prop :=
  name ∈ r.map Prod.fst

instance (name : String) (r : DfRow) : Decidable (hasCol name r) := by
  unfold hasCol; infer_instance

/-- Cell 17 on the untyped view: boolean-mask indexing
`vowels[vowels['phone_label'].isin(cats)]` materialises a new dataframe made
of copies of the selected rows (pandas boolean indexing returns a copy, not a
view of the parent). -/
def selectRows (cats : List String) (t : List DfRow) : List DfRow :=
  t.filter (fun r =>
    match r.lookup "phone_label" with
    | some (Val.str s) => s ∈ cats
    | _ => false)

/-- Cell 19: `subset['cluster_label'] = k_subset_zscore.labels_` appends a
new column holding the i-th label in the i-th row of the (copied) subset. -/
def addClusterCol (t : List DfRow) (labels : List ℤ) : List DfRow :=
  List.zipWith (fun r l => r ++ [("cluster_label", Val.num l)]) t labels

/-- The notebook's dataframe variables live side by side in the interpreter;
the two cells below only ever rebind `subset`. -/
structure Notebook where
  vowels : List DfRow
  subset : List DfRow

/-- Cell 17: bind `subset` to the filtered copy of `vowels`. -/
def runCell17 (vowels : List DfRow) (cats : List String) : Notebook :=
  ⟨vowels, selectRows cats vowels⟩

/-- Cell 19: assign the cluster-label column on `subset`; `vowels` is not
touched (the subset is an independent copy, so the write cannot alias it). -/
def runCell19 (nb : Notebook) (labels : List ℤ) : Notebook :=
  ⟨nb.vowels, addClusterCol nb.subset labels⟩

/-! ## Concrete tables used by witnesses and counterexamples -/

/-- A two-row, one-speaker table with `F1` (and `F2`) values 0 and 2:
the smallest group exhibiting the `ddof` discrepancy of claim C1. -/
noncomputable def exV : List VRow :=
  [⟨"A", "iy", 0, 0⟩, ⟨"A", "iy", 2, 2⟩]

/-- A constant-valued two-row group (both measurements 5). -/
noncomputable def exConst : List VRow :=
  [⟨"A", "iy", 5, 5⟩, ⟨"A", "iy", 5, 5⟩]

/-- A raw row whose `F1` is present but whose `F2` is missing. -/
def exLRow : LRow := ⟨"A", "iy", some 1, none⟩

/-- A one-row raw table exhibiting the loader's F1-only filter. -/
def exL : List LRow := [exLRow]

/-- A small concrete two-row table over the rational columns. -/
def exA : List ARow := [⟨"A", "iy", 1, 2⟩, ⟨"A", "aa", 3, 4⟩]

/-- A category list whose single label does not occur in `exA`. -/
def exAbsentCats : List String := ["zz"]

/-- Concrete ground-truth labels for the evaluator witness. -/
def exGt : List String := ["iy", "iy", "aa"]

/-- Concrete predicted labels for the evaluator witness. -/
def exPred : List String := ["c0", "c1", "c1"]

/-- A concrete untyped dataframe with no `cluster_label` column. -/
def exDf : List DfRow :=
  [[("phone_label", Val.str "iy"), ("F1", Val.num 3)],
   [("phone_label", Val.str "aa"), ("F1", Val.num 7)]]

/-! ## Helper lemmas: real statistics -/

theorem sum_map_sub_div (g : List ℝ) (μ σ : ℝ) :
    (g.map (fun x => (x - μ) / σ)).sum = (g.sum - g.length * μ) / σ := by
  induction g with
  | nil => simp
  | cons a g ih =>
    simp only [List.map_cons, List.sum_cons, ih, List.length_cons]
    push_cast
    ring

theorem sum_map_sq_div (g : List ℝ) (μ σ : ℝ) :
    (g.map (fun x => ((x - μ) / σ) ^ 2)).sum =
      (g.map (fun x => (x - μ) ^ 2)).sum / σ ^ 2 := by
  induction g with
  | nil => simp
  | cons a g ih =>
    simp only [List.map_cons, List.sum_cons, ih]
    ring

theorem popVar_nonneg (xs : List ℝ) : 0 ≤ popVar xs := by
  unfold popVar
  apply div_nonneg _ (by positivity)
  apply List.sum_nonneg
  intro x hx
  obtain ⟨y, _, rfl⟩ := List.mem_map.mp hx
  positivity

theorem popStd_sq (xs : List ℝ) : popStd xs ^ 2 = popVar xs :=
  Real.sq_sqrt (popVar_nonneg xs)

theorem popStd_eq_zero_iff (xs : List ℝ) : popStd xs = 0 ↔ popVar xs = 0 := by
  unfold popStd
  exact Real.sqrt_eq_zero (popVar_nonneg xs)

theorem mean_map_zscore (g : List ℝ) (hg : g ≠ []) :
    mean (g.map (fun x => (x - mean g) / popStd g)) = 0 := by
  have hn : (g.length : ℝ) ≠ 0 := by
    exact_mod_cast Nat.pos_iff_ne_zero.mp (List.length_pos.mpr hg)
  unfold mean
  rw [sum_map_sub_div, List.length_map]
  have h0 : g.sum - (g.length : ℝ) * (g.sum / g.length) = 0 := by field_simp
  rw [h0, zero_div, zero_div]

theorem popVar_map_zscore (g : List ℝ) (hσ : popStd g ≠ 0) :
    popVar (g.map (fun x => (x - mean g) / popStd g)) = 1 := by
  have hg : g ≠ [] := by
    intro h
    apply hσ
    rw [h]
    simp [popStd, popVar, mean, Real.sqrt_zero]
  have hn : (g.length : ℝ) ≠ 0 := by
    exact_mod_cast Nat.pos_iff_ne_zero.mp (List.length_pos.mpr hg)
  have hv : popVar g ≠ 0 := fun h => hσ ((popStd_eq_zero_iff g).mpr h)
  unfold popVar
  rw [mean_map_zscore g hg, List.length_map]
  simp only [sub_zero, List.map_map, Function.comp_def]
  rw [sum_map_sq_div, popStd_sq]
  have hvdef : (g.map (fun x => (x - mean g) ^ 2)).sum = popVar g * g.length := by
    simp only [popVar]
    field_simp
  rw [hvdef]
  field_simp

theorem popStd_map_zscore (g : List ℝ) (hσ : popStd g ≠ 0) :
    popStd (g.map (fun x => (x - mean g) / popStd g)) = 1 := by
  rw [popStd, popVar_map_zscore g hσ, Real.sqrt_one]

theorem mean_const (g : List ℝ) (c : ℝ) (hg : g ≠ []) (h : ∀ x ∈ g, x = c) :
    mean g = c := by
  have hn : (g.length : ℝ) ≠ 0 := by
    exact_mod_cast Nat.pos_iff_ne_zero.mp (List.length_pos.mpr hg)
  rw [mean, List.sum_eq_card_nsmul g c h, nsmul_eq_mul]
  field_simp

theorem popVar_const (g : List ℝ) (c : ℝ) (h : ∀ x ∈ g, x = c) :
    popVar g = 0 := by
  rcases eq_or_ne g [] with rfl | hg
  · simp [popVar]
  · rw [popVar]
    have hz : (g.map (fun x => (x - mean g) ^ 2)).sum = 0 := by
      rw [List.sum_eq_card_nsmul _ (0 : ℝ), smul_zero]
      intro y hy
      obtain ⟨x, hx, rfl⟩ := List.mem_map.mp hy
      rw [h x hx, mean_const g c hg h]
      ring
    rw [hz, zero_div]

theorem popStd_const (g : List ℝ) (c : ℝ) (h : ∀ x ∈ g, x = c) :
    popStd g = 0 := by
  rw [popStd_eq_zero_iff]
  exact popVar_const g c h

theorem zOut_aux (t u : List VRow) (s : String) :
    ((u.map (fun r =>
      ({ speaker := r.speaker
         phone_label := r.phone_label
         F2 := r.F2
         F1 := r.F1
         F2z := zscoreAt (groupF2 t r.speaker) r.F2
         F1z := zscoreAt (groupF1 t r.speaker) r.F1 } : VRowZ))).filter
        (fun r => r.speaker = s)).map (fun r => r.F1z)
      = ((u.filter (fun r => r.speaker = s)).map (fun r => r.F1)).map
          (zscoreAt (groupF1 t s)) := by
  induction u with
  | nil => rfl
  | cons a u ih =>
    by_cases h : a.speaker = s
    · simp [List.filter_cons, h, ih, Function.comp_def]
    · simp [List.filter_cons, h, ih, Function.comp_def]

theorem zOutF1_eq (t : List VRow) (s : String) :
    zOutF1 t s = (groupF1 t s).map (zscoreAt (groupF1 t s)) := by
  unfold zOutF1 normalize
  rw [zOut_aux t t s]
  rfl

theorem zOut_auxF2 (t u : List VRow) (s : String) :
    ((u.map (fun r =>
      ({ speaker := r.speaker
         phone_label := r.phone_label
         F2 := r.F2
         F1 := r.F1
         F2z := zscoreAt (groupF2 t r.speaker) r.F2
         F1z := zscoreAt (groupF1 t r.speaker) r.F1 } : VRowZ))).filter
        (fun r => r.speaker = s)).map (fun r => r.F2z)
      = ((u.filter (fun r => r.speaker = s)).map (fun r => r.F2)).map
          (zscoreAt (groupF2 t s)) := by
  induction u with
  | nil => rfl
  | cons a u ih =>
    by_cases h : a.speaker = s
    · simp [List.filter_cons, h, ih, Function.comp_def]
    · simp [List.filter_cons, h, ih, Function.comp_def]

theorem zOutF2_eq (t : List VRow) (s : String) :
    zOutF2 t s = (groupF2 t s).map (zscoreAt (groupF2 t s)) := by
  unfold zOutF2 normalize
  rw [zOut_auxF2 t t s]
  rfl

theorem groupF1_exV : groupF1 exV "A" = [0, 2] := by
  simp [groupF1, exV]

theorem groupF2_exV : groupF2 exV "A" = [0, 2] := by
  simp [groupF2, exV]

theorem mean_exV : mean ([0, 2] : List ℝ) = 1 := by
  norm_num [mean]

theorem popStd_exV : popStd ([0, 2] : List ℝ) = 1 := by
  have hv : popVar ([0, 2] : List ℝ) = 1 := by
    norm_num [popVar, mean_exV]
  rw [popStd, hv, Real.sqrt_one]

theorem sampleStd_exV : sampleStd ([0, 2] : List ℝ) = Real.sqrt 2 := by
  have hv : sampleVar ([0, 2] : List ℝ) = 2 := by
    norm_num [sampleVar, mean_exV]
  rw [sampleStd, hv]

theorem zOutF1_exV : zOutF1 exV "A" = [some (-1), some 1] := by
  rw [zOutF1_eq, groupF1_exV]
  simp only [List.map_cons, List.map_nil, zscoreAt, popStd_exV, one_ne_zero,
    if_false, mean_exV]
  norm_num

theorem sqrt_two_gt : (11 / 8 : ℝ) < Real.sqrt 2 := by
  rw [Real.lt_sqrt (by norm_num)]
  norm_num

theorem groupF1_exConst : groupF1 exConst "A" = [5, 5] := by
  simp [groupF1, exConst]

/-- C1, counterexample: on the two-row speaker group with `F1` values 0 and 2
the code's normalizer (which divides by the `ddof = 0` population standard
deviation, here 1) outputs exactly -1 and 1, whereas the claimed formula
`(value - group mean) / group sample stddev` gives a value more than 1/4 away
from -1 at the first row, and the sample standard deviation (`ddof = 1`) of
the produced column is more than 1/4 away from 1 — far outside floating-point
tolerance. -/
theorem C1_counterexample :
    zOutF1 exV "A" = [some (-1), some 1]
    ∧ |(0 - mean (groupF1 exV "A")) / sampleStd (groupF1 exV "A") - (-1)| > 1 / 4
    ∧ |sampleStd [(-1 : ℝ), 1] - 1| > 1 / 4 := by
  have hs := sqrt_two_gt
  have hspos : (0 : ℝ) < Real.sqrt 2 := by linarith
  refine ⟨zOutF1_exV, ?_, ?_⟩
  · rw [groupF1_exV, mean_exV, sampleStd_exV]
    have hinv : 1 / Real.sqrt 2 < 3 / 4 := by
      rw [div_lt_iff₀ hspos]
      nlinarith
    have he : (0 - 1) / Real.sqrt 2 - (-1) = 1 - 1 / Real.sqrt 2 := by ring
    rw [he, abs_of_pos (by linarith)]
    linarith
  · have hm : mean ([(-1 : ℝ), 1]) = 0 := by norm_num [mean]
    have hv : sampleVar ([(-1 : ℝ), 1]) = 2 := by norm_num [sampleVar, hm]
    rw [sampleStd, hv, abs_of_pos (by linarith)]
    linarith

/-- C1, amended: for every table, speaker and group of sample size at least 2
whose population standard deviation is nonzero, the normalizer's output
column equals, row for row, `(value - group mean) / group population stddev`
(`ddof = 0`, scipy's default) — not the sample standard deviation — and the
normalized values of the group then have mean exactly 0 and population
standard deviation exactly 1. -/
theorem C1_normalizer_zscore_popStd (t : List VRow) (s : String)
    (h2 : 2 ≤ (groupF1 t s).length)
    (hσ1 : popStd (groupF1 t s) ≠ 0)
    (hσ2 : popStd (groupF2 t s) ≠ 0) :
    (zOutF1 t s
      = (groupF1 t s).map
          (fun x => some ((x - mean (groupF1 t s)) / popStd (groupF1 t s)))
    ∧ mean ((groupF1 t s).map
        (fun x => (x - mean (groupF1 t s)) / popStd (groupF1 t s))) = 0
    ∧ popStd ((groupF1 t s).map
        (fun x => (x - mean (groupF1 t s)) / popStd (groupF1 t s))) = 1)
    ∧ (zOutF2 t s
      = (groupF2 t s).map
          (fun x => some ((x - mean (groupF2 t s)) / popStd (groupF2 t s)))
    ∧ mean ((groupF2 t s).map
        (fun x => (x - mean (groupF2 t s)) / popStd (groupF2 t s))) = 0
    ∧ popStd ((groupF2 t s).map
        (fun x => (x - mean (groupF2 t s)) / popStd (groupF2 t s))) = 1) := by
  have hg1 : groupF1 t s ≠ [] := by
    intro h
    rw [h] at h2
    simp at h2
  have hg2 : groupF2 t s ≠ [] := by
    intro h
    apply hσ2
    rw [h]
    simp [popStd, popVar, mean, Real.sqrt_zero]
  constructor
  · refine ⟨?_, mean_map_zscore _ hg1, popStd_map_zscore _ hσ1⟩
    rw [zOutF1_eq]
    apply List.map_congr_left
    intro x hx
    rw [zscoreAt, if_neg hσ1]
  · refine ⟨?_, mean_map_zscore _ hg2, popStd_map_zscore _ hσ2⟩
    rw [zOutF2_eq]
    apply List.map_congr_left
    intro x hx
    rw [zscoreAt, if_neg hσ2]

/-- Witness for C1: the amended theorem applied to the concrete two-row
table `exV`, whose group has size 2 and population standard deviation 1. -/
theorem C1_witness :
    zOutF1 exV "A"
      = (groupF1 exV "A").map
          (fun x => some ((x - mean (groupF1 exV "A")) / popStd (groupF1 exV "A"))) :=
  (C1_normalizer_zscore_popStd exV "A"
    (by rw [groupF1_exV]; norm_num)
    (by rw [groupF1_exV, popStd_exV]; norm_num)
    (by rw [groupF2_exV, popStd_exV]; norm_num)).1.1

/-- C10: on a group whose values are all equal the z-score divides by a zero
population standard deviation; the IEEE division is absorbed as NaN
(modelled `none`) for every row of the group, and the normalizer still
totally evaluates instead of raising. -/
theorem C10_constant_group_nan (t : List VRow) (s : String) (c : ℝ)
    (hc : ∀ x ∈ groupF1 t s, x = c) :
    zOutF1 t s = List.replicate (groupF1 t s).length none := by
  have hσ : popStd (groupF1 t s) = 0 := popStd_const _ c hc
  rw [zOutF1_eq]
  apply List.eq_replicate_iff.mpr
  refine ⟨by simp, ?_⟩
  intro b hb
  obtain ⟨x, hx, rfl⟩ := List.mem_map.mp hb
  rw [zscoreAt, if_pos hσ]

/-- Witness for C10: the constant two-row group of `exConst` (both values 5)
yields `[none, none]`, that is NaN in both rows. -/
theorem C10_witness :
    zOutF1 exConst "A" = List.replicate (groupF1 exConst "A").length none :=
  C10_constant_group_nan exConst "A" 5 (by
    intro x hx
    rw [groupF1_exConst] at hx
    rcases List.mem_cons.mp hx with h | h
    · exact h
    · simpa using h)

/-- C8: the normalizer is additive: projecting its output back onto the
original columns returns the input table unchanged, row for row — no source
column is overwritten, the z-score columns are only appended. -/
theorem C8_normalizer_additive (t : List VRow) :
    (normalize t).map VRowZ.orig = t ∧ (normalize t).length = t.length := by
  constructor
  · unfold normalize
    rw [List.map_map]
    exact (List.map_congr_left fun r _ => rfl).trans (List.map_id t)
  · simp [normalize]

/-! ## Claims on the loader, subset selector and cluster adapter -/

/-- C3, counterexample: a row whose `F1` is present but whose `F2` is missing
survives the loader's filter, so not every required formant column is
non-missing after loading. -/
theorem C3_counterexample :
    loadFilter exL = [exLRow] ∧ exLRow.F2 = none := by
  constructor
  · rfl
  · rfl

/-- C3, amended: the loader guarantees only that `F1` is non-missing in every
retained row (the notebook filters on `vowels['F1'].isnull()` alone); rows
with a missing `F1` are dropped, `F2` is not inspected. -/
theorem C3_loader_F1_nonmissing (t : List LRow) (r : LRow)
    (hr : r ∈ loadFilter t) : r.F1.isSome := by
  have h := List.mem_filter.mp hr
  simpa using h.2

/-- Witness for C3: the amended loader theorem applied to a concrete
one-row table with both measurements present. -/
theorem C3_witness : (⟨"A", "iy", some 1, some 2⟩ : LRow).F1.isSome :=
  C3_loader_F1_nonmissing [⟨"A", "iy", some 1, some 2⟩] _ (by simp [loadFilter])

/-- C7: the subset selector returns exactly the rows whose category value is
in the set: it is a sublist of the input (original relative order and full
rows preserved), every occurrence of a member-valued row is kept with its
multiplicity, and no non-member row appears. -/
theorem C7_subset_selector (cats : List String) (t : List ARow) :
    (selectSubset cats t).Sublist t
    ∧ (∀ r : ARow, (selectSubset cats t).count r
        = if r.phone_label ∈ cats then t.count r else 0)
    ∧ (∀ r : ARow, r ∈ selectSubset cats t ↔ r ∈ t ∧ r.phone_label ∈ cats) := by
  refine ⟨List.filter_sublist t, ?_, ?_⟩
  · intro r
    by_cases h : r.phone_label ∈ cats
    · rw [if_pos h]
      exact List.count_filter (by simpa using h)
    · rw [if_neg h]
      rw [List.count_eq_zero]
      intro hmem
      exact h (by simpa using (List.mem_filter.mp hmem).2)
  · intro r
    rw [selectSubset, List.mem_filter]
    simp

/-- C2, counterexample: filtering the concrete table `exA` for the absent
label set `["zz"]` yields zero rows, and the notebook's clustering stage,
k-means with `n_clusters = 3`, then fails with `InvalidConfiguration` on the
zero-row feature matrix instead of returning a zero-row output. -/
theorem C2_counterexample :
    selectSubset exAbsentCats exA = []
    ∧ kmeansFit trivialAssign 3 (featureMatrix (selectSubset exAbsentCats exA))
        = .error .invalidConfiguration := by
  constructor
  · decide
  · rfl

/-- C2, amended: a category set with no label present in the data yields a
zero-row subset, and aggregation of the zero-row subset yields zero rows;
but the clustering stage invoked with any positive cluster count on the
zero-row input fails with `InvalidConfiguration` (as the spec's section 4.4
requires) rather than returning a zero-row output. -/
theorem C2_empty_subset_propagation (cats : List String) (t : List ARow)
    (habs : ∀ c ∈ cats, c ∉ t.map (fun r => r.phone_label)) :
    selectSubset cats t = []
    ∧ aggMeans (selectSubset cats t) = []
    ∧ ∀ (assign : List (ℚ × ℚ) → List ℕ) (k : ℕ), 1 ≤ k →
        kmeansFit assign k (featureMatrix (selectSubset cats t))
          = .error .invalidConfiguration := by
  have hsel : selectSubset cats t = [] := by
    rw [selectSubset, List.filter_eq_nil_iff]
    intro r hr
    simp only [decide_eq_true_eq]
    intro hc
    exact habs _ hc (List.mem_map.mpr ⟨r, hr, rfl⟩)
  refine ⟨hsel, by rw [hsel]; rfl, ?_⟩
  intro assign k hk
  rw [hsel]
  unfold kmeansFit featureMatrix
  rw [if_neg]
  rintro ⟨h1, h2⟩
  simp at h2
  omega

/-- Witness for C2: the amended propagation theorem applied to the concrete
table `exA` and the absent label set `["zz"]`. -/
theorem C2_witness :
    selectSubset exAbsentCats exA = [] :=
  (C2_empty_subset_propagation exAbsentCats exA (by decide)).1

/-- C6: invoking the cluster adapter with a requested cluster or component
count exceeding the number of input points fails with
`InvalidConfiguration`, for k-means and the Gaussian mixture alike; the
error is returned to the caller, never an `ok` with a clamped count. -/
theorem C6_invalid_configuration (assignK assignG : List (ℚ × ℚ) → List ℕ)
    (k : ℕ) (pts : List (ℚ × ℚ)) (h : pts.length < k) :
    kmeansFit assignK k pts = .error .invalidConfiguration
    ∧ gmmFit assignG k pts = .error .invalidConfiguration := by
  constructor
  · unfold kmeansFit
    rw [if_neg]
    rintro ⟨h1, h2⟩
    omega
  · unfold gmmFit
    rw [if_neg]
    rintro ⟨h1, h2⟩
    omega

/-- Witness for C6: k-means and GMM requested with 5 clusters on a single
point both report `InvalidConfiguration`. -/
theorem C6_witness :
    kmeansFit trivialAssign 5 [((1 : ℚ), (1 : ℚ))]
      = .error .invalidConfiguration :=
  (C6_invalid_configuration trivialAssign trivialAssign 5 [(1, 1)] (by decide)).1

/-- C9: after binding `subset` to the filtered copy and assigning the
cluster-label column on it, the parent `vowels` table is unchanged value for
value and still has no `cluster_label` column in any row, while every row of
the labelled subset does carry the new column. -/
theorem C9_subset_assignment_frame (vowels : List DfRow) (cats : List String)
    (labels : List ℤ)
    (hv : ∀ r ∈ vowels, ¬ hasCol "cluster_label" r) :
    (runCell19 (runCell17 vowels cats) labels).vowels = vowels
    ∧ (∀ r ∈ (runCell19 (runCell17 vowels cats) labels).vowels,
        ¬ hasCol "cluster_label" r)
    ∧ (∀ r ∈ (runCell19 (runCell17 vowels cats) labels).subset,
        hasCol "cluster_label" r) := by
  refine ⟨rfl, hv, ?_⟩
  show ∀ r ∈ addClusterCol (selectRows cats vowels) labels, hasCol "cluster_label" r
  generalize selectRows cats vowels = t
  intro r hr
  induction t generalizing labels with
  | nil => cases hr
  | cons a t ih =>
    cases labels with
    | nil => cases hr
    | cons l ls =>
      rcases List.mem_cons.mp hr with rfl | h
      · unfold hasCol
        simp
      · exact ih ls h

/-- Witness for C9: the frame theorem applied to the concrete two-row
dataframe `exDf` with one selected category and one label. -/
theorem C9_witness :
    (runCell19 (runCell17 exDf ["iy"]) [0]).vowels = exDf :=
  (C9_subset_assignment_frame exDf ["iy"] [0] (by decide)).1

/-! ## Partition-sum helper lemmas for the evaluator and the aggregator -/

theorem sum_map_zero {κ M : Type} [AddCommMonoid M] (K : List κ) :
    (K.map (fun _ => (0 : M))).sum = 0 := by
  rw [List.sum_eq_card_nsmul _ (0 : M), smul_zero]
  intro y hy
  obtain ⟨k, _, rfl⟩ := List.mem_map.mp hy
  rfl

theorem sum_map_ite_eq {κ M : Type} [DecidableEq κ] [AddCommMonoid M]
    (K : List κ) (hK : K.Nodup) (x : κ) (hx : x ∈ K) (c : M) :
    (K.map (fun k => if x = k then c else 0)).sum = c := by
  induction K with
  | nil => cases hx
  | cons a K ih =>
    rcases List.mem_cons.mp hx with rfl | hxK
    · simp only [List.map_cons, List.sum_cons, if_pos rfl]
      have hnot : x ∉ K := (List.nodup_cons.mp hK).1
      have hz : (K.map (fun k => if x = k then c else 0)).sum = 0 := by
        rw [List.sum_eq_card_nsmul _ (0 : M), smul_zero]
        intro y hy
        obtain ⟨k, hk, rfl⟩ := List.mem_map.mp hy
        rw [if_neg]
        intro h
        exact hnot (h ▸ hk)
      rw [hz, add_zero]
      simp
    · have ha : x ≠ a := by
        rintro rfl
        exact (List.nodup_cons.mp hK).1 hxK
      simp only [List.map_cons, List.sum_cons, if_neg ha]
      rw [ih (List.nodup_cons.mp hK).2 hxK, zero_add]

theorem sum_map_div {κ : Type} (K : List κ) (f : κ → ℚ) (d : ℚ) :
    (K.map (fun k => f k / d)).sum = (K.map f).sum / d := by
  induction K with
  | nil => simp
  | cons a K ih =>
    simp only [List.map_cons, List.sum_cons, ih]
    rw [div_add_div_same]

theorem sum_map_fiber {α κ : Type} [DecidableEq κ]
    (l : List α) (key : α → κ) (f : α → ℚ) (K : List κ) (hK : K.Nodup)
    (hl : ∀ a ∈ l, key a ∈ K) :
    (K.map (fun k => ((l.filter (fun a => key a = k)).map f).sum)).sum
      = (l.map f).sum := by
  induction l with
  | nil =>
    simp only [List.filter_nil, List.map_nil, List.sum_nil]
    exact sum_map_zero K
  | cons a l ih =>
    have hmem : key a ∈ K := hl a (List.mem_cons_self a l)
    have hl' : ∀ b ∈ l, key b ∈ K := fun b hb => hl b (List.mem_cons_of_mem a hb)
    have hsplit : ∀ k : κ,
        (((a :: l).filter (fun b => key b = k)).map f).sum
          = (if key a = k then f a else 0)
            + ((l.filter (fun b => key b = k)).map f).sum := by
      intro k
      by_cases h : key a = k
      · simp [List.filter_cons, h]
      · simp [List.filter_cons, h]
    rw [List.map_congr_left (fun k _ => hsplit k), List.sum_map_add,
      sum_map_ite_eq K hK (key a) hmem (f a), ih hl',
      List.map_cons, List.sum_cons]

theorem cellCount_cons (q : String × String) (ps : List (String × String))
    (g p : String) :
    cellCount (q :: ps) g p
      = (if q.1 = g ∧ q.2 = p then 1 else 0) + cellCount ps g p := by
  unfold cellCount
  by_cases h : q.1 = g ∧ q.2 = p
  · simp [List.filter_cons, h]
    omega
  · simp [List.filter_cons, h]

theorem rowCount_cons (q : String × String) (ps : List (String × String))
    (g : String) :
    rowCount (q :: ps) g = (if q.1 = g then 1 else 0) + rowCount ps g := by
  unfold rowCount
  by_cases h : q.1 = g
  · simp [List.filter_cons, h]
    omega
  · simp [List.filter_cons, h]

theorem sum_cellCount (ps : List (String × String)) (g : String)
    (P : List String) (hP : P.Nodup) (hmem : ∀ q ∈ ps, q.2 ∈ P) :
    (P.map (fun p => cellCount ps g p)).sum = rowCount ps g := by
  induction ps with
  | nil =>
    have h0 : ∀ p ∈ P, cellCount [] g p = 0 := by
      intro p _
      rfl
    rw [List.map_congr_left h0, sum_map_zero P]
    rfl
  | cons q ps ih =>
    have hq2 : q.2 ∈ P := hmem q (List.mem_cons_self q ps)
    have hmem' : ∀ r ∈ ps, r.2 ∈ P := fun r hr => hmem r (List.mem_cons_of_mem q hr)
    rw [List.map_congr_left (fun p _ => cellCount_cons q ps g p),
      List.sum_map_add, ih hmem', rowCount_cons]
    congr 1
    by_cases h1 : q.1 = g
    · have he : ∀ p ∈ P, (if q.1 = g ∧ q.2 = p then 1 else 0)
          = (if q.2 = p then (1 : ℕ) else 0) := by
        intro p _
        by_cases h2 : q.2 = p
        · simp [h1, h2]
        · simp [h1, h2]
      rw [List.map_congr_left he, sum_map_ite_eq P hP q.2 hq2 1, if_pos h1]
    · have he : ∀ p ∈ P, (if q.1 = g ∧ q.2 = p then 1 else 0) = (0 : ℕ) := by
        intro p _
        simp [h1]
      rw [List.map_congr_left he, sum_map_zero P, if_neg h1]

theorem rowCount_pos (gt pred : List String) (hlen : gt.length = pred.length)
    (g : String) (hg : g ∈ gt) :
    1 ≤ rowCount (labelPairs gt pred) g := by
  have hfst : (labelPairs gt pred).map Prod.fst = gt :=
    List.map_fst_zip gt pred (le_of_eq hlen)
  rw [← hfst] at hg
  obtain ⟨q, hq, hq1⟩ := List.mem_map.mp hg
  have hmem : q ∈ (labelPairs gt pred).filter (fun r => r.1 = g) :=
    List.mem_filter.mpr ⟨hq, by simpa using hq1⟩
  have := List.length_pos.mpr (List.ne_nil_of_mem hmem)
  unfold rowCount
  omega

/-! ## Claim C4: the row-normalized contingency table -/

/-- C4: for equal-length ground-truth and predicted label sequences, the
contingency table has one row exactly for each ground-truth value that
occurs at least once; each such value has at least one row (so the row
normalizer never divides by zero), each entry is the fraction
`cellCount / rowCount`, and the fractions of every row sum to exactly 1 —
in particular within the 1e-9 tolerance. -/
theorem C4_crosstab_rows_sum_one (gt pred : List String)
    (hlen : gt.length = pred.length) (g : String) (hg : g ∈ gt) :
    (∀ x : String,
      x ∈ (crosstabIndexNorm gt pred).map Prod.fst ↔ x ∈ gt)
    ∧ 1 ≤ rowCount (labelPairs gt pred) g
    ∧ (∀ c ∈ crosstabRow gt pred g,
        c.2 = (cellCount (labelPairs gt pred) g c.1 : ℚ)
            / (rowCount (labelPairs gt pred) g : ℚ))
    ∧ ((crosstabRow gt pred g).map (fun c => c.2)).sum = 1
    ∧ |((crosstabRow gt pred g).map (fun c => c.2)).sum - 1|
        ≤ 1 / 1000000000 := by
  have hpos := rowCount_pos gt pred hlen g hg
  have hne : ((rowCount (labelPairs gt pred) g : ℚ)) ≠ 0 := by
    exact_mod_cast Nat.pos_iff_ne_zero.mp hpos
  have hsum : ((crosstabRow gt pred g).map (fun c => c.2)).sum = 1 := by
    unfold crosstabRow
    rw [List.map_map]
    have he : ∀ p ∈ pred.dedup,
        ((fun c : String × ℚ => c.2) ∘ fun p =>
          (p, (cellCount (labelPairs gt pred) g p : ℚ)
            / (rowCount (labelPairs gt pred) g : ℚ))) p
        = (fun p => (cellCount (labelPairs gt pred) g p : ℚ)
            / (rowCount (labelPairs gt pred) g : ℚ)) p := by
      intro p _
      rfl
    rw [List.map_congr_left he, sum_map_div]
    have hcast : (pred.dedup.map
        (fun p => (cellCount (labelPairs gt pred) g p : ℚ))).sum
        = ((pred.dedup.map (fun p => cellCount (labelPairs gt pred) g p)).sum
            : ℕ) := by
      rw [Nat.cast_list_sum, List.map_map]
      rfl
    rw [hcast, sum_cellCount (labelPairs gt pred) g pred.dedup
      (List.nodup_dedup pred)
      (fun q hq => List.mem_dedup.mpr (List.of_mem_zip hq).2)]
    exact div_self hne
  refine ⟨?_, hpos, ?_, hsum, ?_⟩
  · intro x
    unfold crosstabIndexNorm
    rw [List.map_map]
    constructor
    · intro hx
      obtain ⟨y, hy, hyx⟩ := List.mem_map.mp hx
      exact List.mem_dedup.mp (by simpa [← hyx] using hy)
    · intro hx
      exact List.mem_map.mpr ⟨x, List.mem_dedup.mpr hx, rfl⟩
  · intro c hc
    unfold crosstabRow at hc
    obtain ⟨p, _, hp⟩ := List.mem_map.mp hc
    rw [← hp]
  · rw [hsum]
    norm_num

/-- Witness for C4: the contingency theorem applied to the concrete label
sequences `exGt` and `exPred` at the ground-truth value `iy`. -/
theorem C4_witness :
    ((crosstabRow exGt exPred "iy").map (fun c => c.2)).sum = 1 :=
  (C4_crosstab_rows_sum_one exGt exPred (by decide) "iy" (by decide)).2.2.2.1

/-! ## Claim C5: the aggregator -/

theorem key_weighted_sum (t : List ARow) (f : ARow → ℚ) :
    ((aggKeys t).map (fun k =>
        ((aggGroup t k).length : ℚ) * qmean ((aggGroup t k).map f))).sum
      = (t.map f).sum := by
  have hstep : ∀ k ∈ aggKeys t,
      ((aggGroup t k).length : ℚ) * qmean ((aggGroup t k).map f)
        = ((aggGroup t k).map f).sum := by
    intro k hk
    obtain ⟨a, ha, hak⟩ := List.mem_map.mp (List.mem_dedup.mp hk)
    have hmem : a ∈ aggGroup t k := List.mem_filter.mpr ⟨ha, by simpa using hak⟩
    have hlen : (aggGroup t k).length ≠ 0 := by
      have := List.length_pos.mpr (List.ne_nil_of_mem hmem)
      omega
    have hlenq : ((aggGroup t k).length : ℚ) ≠ 0 := by exact_mod_cast hlen
    rw [qmean, List.length_map]
    field_simp
  rw [List.map_congr_left hstep]
  unfold aggGroup
  exact sum_map_fiber t (fun r => (r.speaker, r.phone_label)) f (aggKeys t)
    (List.nodup_dedup _)
    (fun a ha => List.mem_dedup.mpr (List.mem_map.mpr ⟨a, ha, rfl⟩))

/-- C5: the aggregator is a projection: its output has exactly one row per
distinct grouping-key tuple of the input (so the output row count equals the
number of distinct key tuples), the key columns are retained with no
duplicate key, each numeric column of an output row is the arithmetic mean
of its group, and the sum over output rows of group size times group mean
recovers each column's total over the un-aggregated input exactly. -/
theorem C5_aggregator_projection (t : List ARow) :
    (aggMeans t).length
      = (t.map (fun r => (r.speaker, r.phone_label))).toFinset.card
    ∧ (aggMeans t).map (fun r => (r.speaker, r.phone_label)) = aggKeys t
    ∧ (aggKeys t).Nodup
    ∧ (∀ r ∈ aggMeans t,
        r.F2z = qmean ((aggGroup t (r.speaker, r.phone_label)).map
          (fun x => x.F2z))
        ∧ r.F1z = qmean ((aggGroup t (r.speaker, r.phone_label)).map
          (fun x => x.F1z)))
    ∧ ((aggMeans t).map (fun r =>
          ((aggGroup t (r.speaker, r.phone_label)).length : ℚ) * r.F2z)).sum
        = (t.map (fun r => r.F2z)).sum
    ∧ ((aggMeans t).map (fun r =>
          ((aggGroup t (r.speaker, r.phone_label)).length : ℚ) * r.F1z)).sum
        = (t.map (fun r => r.F1z)).sum := by
  refine ⟨?_, ?_, List.nodup_dedup _, ?_, ?_, ?_⟩
  · simp [aggMeans, aggKeys, List.card_toFinset]
  · rw [aggMeans, List.map_map]
    exact (List.map_congr_left fun k _ => rfl).trans (List.map_id _)
  · intro r hr
    obtain ⟨k, hk, rfl⟩ := List.mem_map.mp hr
    exact ⟨rfl, rfl⟩
  · rw [aggMeans, List.map_map]
    exact key_weighted_sum t (fun r => r.F2z)
  · rw [aggMeans, List.map_map]
    exact key_weighted_sum t (fun r => r.F1z)

/-- Witness for C5: the aggregator theorem applied to the concrete table
`exA`; the weighted group means recover the exact column total. -/
theorem C5_witness :
    ((aggMeans exA).map (fun r =>
        ((aggGroup exA (r.speaker, r.phone_label)).length : ℚ) * r.F2z)).sum
      = (exA.map (fun r => r.F2z)).sum :=
  (C5_aggregator_projection exA).2.2.2.2.1

/-- Witness for C7: the subset selector applied to the concrete table `exA`
returns a sublist of it. -/
theorem C7_witness :
    (selectSubset ["iy"] exA).Sublist exA :=
  (C7_subset_selector ["iy"] exA).1

end ClusteringWorkshop
